import Mathlib

/-!
Verification of the BeatFrame Creator repository.

The development embeds the beat-to-image mapping helpers, the simulated
export routine, the upload and reordering handlers, and a spec-modelled
beat detector, and proves the frozen claims about them.

Numeric modelling: JavaScript numbers (audio times, progress percentages)
are embedded as rationals; the code only compares times and performs exact
small-integer arithmetic on progress values, so rationals are faithful.
-/

/-- Data model of a detected beat (interface BeatInfo from beatDetection.ts):
a time in seconds and an intensity. -/
structure BeatInfo where
  time : ℚ
  intensity : ℚ
deriving DecidableEq, Repr

/-- Data model of an uploaded browser File: name, MIME type, the data URL the
FileReader produces, and whether the read succeeds. -/
structure UploadedFile where
  name : String
  fileType : String
  dataUrl : String
  readOk : Bool
deriving DecidableEq, Repr

/-- Data model of a browser Blob: its bytes and its MIME type. -/
structure Blob where
  bytes : List Nat
  mimeType : String
deriving DecidableEq, Repr

namespace VideoExport

/-- The scanning loop of getImageForTime (videoExport.ts lines 111-119):
walks the beat list with current index i and accumulator acc, records the
index of each beat whose time is at most the query time, and stops at the
first beat whose time exceeds it (the break statement). -/
def closestBeatLoop (time : ℚ) : List BeatInfo → Nat → Nat → Nat
  | [], _, acc => acc
  | b :: bs, i, acc => if b.time ≤ time then closestBeatLoop time bs (i + 1) i else acc

/-- getImageForTime from src/src/lib/videoExport.ts lines 107-123: returns 0
when either list is empty, otherwise the loop result modulo the image count. -/
def getImageForTime (time : ℚ) (beats : List BeatInfo) (images : List String) : Nat :=
  if beats.length = 0 ∨ images.length = 0 then 0
  else closestBeatLoop time beats 0 0 % images.length

end VideoExport

namespace Part003

/-- The scanning loop of getImageForTime in src/unnamed/part_003 lines 187-195. -/
def closestBeatLoop (time : ℚ) : List BeatInfo → Nat → Nat → Nat
  | [], _, acc => acc
  | b :: bs, i, acc => if b.time ≤ time then closestBeatLoop time bs (i + 1) i else acc

/-- getImageForTime from src/unnamed/part_003 lines 183-199; textually the same
code as the videoExport.ts variant. -/
def getImageForTime (time : ℚ) (beats : List BeatInfo) (images : List String) : Nat :=
  if beats.length = 0 ∨ images.length = 0 then 0
  else closestBeatLoop time beats 0 0 % images.length

end Part003

namespace Part004

/-- The scanning loop of getImageForTime in src/unnamed/part_004 lines 228-234. -/
def closestBeatLoop (time : ℚ) : List BeatInfo → Nat → Nat → Nat
  | [], _, acc => acc
  | b :: bs, i, acc => if b.time ≤ time then closestBeatLoop time bs (i + 1) i else acc

/-- getImageForTime from src/unnamed/part_004 lines 222-238: this variant maps
beat index i to image index floor(i / 2) modulo the image count. -/
def getImageForTime (time : ℚ) (beats : List BeatInfo) (images : List String) : Nat :=
  if beats.length = 0 ∨ images.length = 0 then 0
  else (closestBeatLoop time beats 0 0 / 2) % images.length

end Part004

namespace Timeline

/-- getImageForBeat from src/src/components/Timeline.tsx lines 24-26: the
thumbnail shown for a beat index, or none when there are no images. -/
def getImageForBeat (images : List String) (beatIndex : Nat) : Option String :=
  if images.length > 0 then images.get? (beatIndex % images.length) else none

end Timeline

/-- Strictly increasing beat times, the sortedness hypothesis of the claims. -/
def StrictlySorted (beats : List BeatInfo) : Prop :=
  beats.Pairwise (fun a b => a.time < b.time)

instance (beats : List BeatInfo) : Decidable (StrictlySorted beats) := by
  unfold StrictlySorted
  infer_instance

/-- Boolean form of the loop comparison, used to factor the loop through
takeWhile. -/
def beatLE (time : ℚ) (b : BeatInfo) : Bool := decide (b.time ≤ time)

section LoopLemmas

theorem length_takeWhile_le_length (p : α → Bool) :
    ∀ l : List α, (l.takeWhile p).length ≤ l.length
  | [] => Nat.le_refl 0
  | a :: l => by
    by_cases h : p a
    · simpa [List.takeWhile_cons, h] using Nat.succ_le_succ (length_takeWhile_le_length p l)
    · simp [List.takeWhile_cons, h]

theorem takeWhile_sat (p : α → Bool) :
    ∀ (l : List α) (j : Nat) (h : j < (l.takeWhile p).length),
      p (l.get ⟨j, Nat.lt_of_lt_of_le h (length_takeWhile_le_length p l)⟩) = true
  | [], j, h => by simp at h
  | a :: l, j, h => by
    by_cases ha : p a
    · cases j with
      | zero => simpa using ha
      | succ j =>
        have h' : j < (l.takeWhile p).length := by
          simpa [List.takeWhile_cons, ha] using h
        simpa using takeWhile_sat p l j h'
    · simp [List.takeWhile_cons, ha] at h

theorem takeWhile_stop (p : α → Bool) :
    ∀ (l : List α) (h : (l.takeWhile p).length < l.length),
      p (l.get ⟨(l.takeWhile p).length, h⟩) = false
  | [], h => by simp at h
  | a :: l, h => by
    by_cases ha : p a
    · have h' : (l.takeWhile p).length < l.length := by
        simpa [List.takeWhile_cons, ha] using h
      have := takeWhile_stop p l h'
      simpa [List.takeWhile_cons, ha] using this
    · simp [List.takeWhile_cons, ha]

/-- The loop of getImageForTime computes length of the takeWhile prefix of the
beats that satisfy the comparison, minus one; when that prefix is empty the
accumulator is returned unchanged. -/
theorem closestBeatLoop_eq (time : ℚ) :
    ∀ (bs : List BeatInfo) (i acc : Nat),
      VideoExport.closestBeatLoop time bs i acc =
        if (bs.takeWhile (beatLE time)).length = 0 then acc
        else i + (bs.takeWhile (beatLE time)).length - 1
  | [], i, acc => by simp [VideoExport.closestBeatLoop]
  | b :: bs, i, acc => by
    by_cases h : b.time ≤ time
    · rw [VideoExport.closestBeatLoop, if_pos h, closestBeatLoop_eq time bs (i + 1) i]
      have hb : beatLE time b = true := by simp [beatLE, h]
      rw [List.takeWhile_cons, hb]
      by_cases hz : (bs.takeWhile (beatLE time)).length = 0 <;> simp [hz]
    · rw [VideoExport.closestBeatLoop, if_neg h]
      have hb : beatLE time b = false := by simp [beatLE, h]
      rw [List.takeWhile_cons, hb]
      simp

/-- In a strictly sorted beat list, a beat time is at most the query time
exactly when its index lies inside the takeWhile prefix. -/
theorem sorted_le_iff_lt_takeWhile (time : ℚ) (beats : List BeatInfo)
    (hs : StrictlySorted beats) (j : Nat) (hj : j < beats.length) :
    (beats.get ⟨j, hj⟩).time ≤ time ↔ j < (beats.takeWhile (beatLE time)).length := by
  constructor
  · intro hle
    by_contra hge
    push_neg at hge
    set k := (beats.takeWhile (beatLE time)).length with hk
    have hkl : k < beats.length := Nat.lt_of_le_of_lt hge hj
    have hstop : beatLE time (beats.get ⟨k, hkl⟩) = false := takeWhile_stop _ beats hkl
    have hkt : time < (beats.get ⟨k, hkl⟩).time := by
      simpa [beatLE, not_le] using hstop
    rcases Nat.eq_or_lt_of_le hge with heq | hlt
    · exact absurd hle (not_le_of_lt (by simpa [heq] using hkt))
    · have := (List.pairwise_iff_get.mp hs) ⟨k, hkl⟩ ⟨j, hj⟩ hlt
      exact absurd hle (not_le_of_lt (lt_trans hkt this))
  · intro hlt
    have := takeWhile_sat (beatLE time) beats j hlt
    simpa [beatLE] using this

end LoopLemmas

/-- Reduction of getImageForTime to the takeWhile prefix length, for non-empty
inputs. -/
theorem getImageForTime_takeWhile (time : ℚ) (beats : List BeatInfo)
    (images : List String) (hb : beats.length ≠ 0) (hi : images.length ≠ 0) :
    VideoExport.getImageForTime time beats images =
      (if (beats.takeWhile (beatLE time)).length = 0 then 0
       else (beats.takeWhile (beatLE time)).length - 1) % images.length := by
  rw [VideoExport.getImageForTime, if_neg (by tauto), closestBeatLoop_eq]
  by_cases hz : (beats.takeWhile (beatLE time)).length = 0 <;> simp [hz]

/-- Index specification used by claim C1: i is the index of the last beat whose
time is at most the query time, or 0 when every beat is strictly later. -/
def IsLastBeatIndexLE (time : ℚ) (beats : List BeatInfo) (i : Nat) : Prop :=
  (∃ h : i < beats.length, (beats.get ⟨i, h⟩).time ≤ time ∧
    ∀ (j : Nat) (hj : j < beats.length), (beats.get ⟨j, hj⟩).time ≤ time → j ≤ i) ∨
  (i = 0 ∧ ∀ b ∈ beats, time < b.time)

/-- C1: for every time, every non-empty strictly sorted beat list and every
non-empty image list, getImageForTime returns i modulo the image count, where
i is the index of the last beat whose time is at most the query time, and
i = 0 when every beat is strictly later than the query time. -/
theorem getImageForTime_selects_last_beat (time : ℚ) (beats : List BeatInfo)
    (images : List String) (hb : beats ≠ []) (hi : images ≠ [])
    (hs : StrictlySorted beats) :
    ∃ i, IsLastBeatIndexLE time beats i ∧
      VideoExport.getImageForTime time beats images = i % images.length := by
  have hbl : beats.length ≠ 0 := by simpa [List.length_eq_zero] using hb
  have hil : images.length ≠ 0 := by simpa [List.length_eq_zero] using hi
  have hval := getImageForTime_takeWhile time beats images hbl hil
  by_cases hz : (beats.takeWhile (beatLE time)).length = 0
  · refine ⟨0, Or.inr ⟨rfl, ?_⟩, by simp [hval, hz]⟩
    intro b hbmem
    rcases List.mem_iff_get.mp hbmem with ⟨⟨j, hj⟩, rfl⟩
    by_contra hle
    push_neg at hle
    have := (sorted_le_iff_lt_takeWhile time beats hs j hj).mp hle
    omega
  · have hkpos : 0 < (beats.takeWhile (beatLE time)).length := Nat.pos_of_ne_zero hz
    have hkle : (beats.takeWhile (beatLE time)).length ≤ beats.length :=
      length_takeWhile_le_length _ beats
    have hklt : (beats.takeWhile (beatLE time)).length - 1 < beats.length := by omega
    refine ⟨(beats.takeWhile (beatLE time)).length - 1, Or.inl ⟨hklt, ?_, ?_⟩,
      by simp [hval, hz]⟩
    · exact (sorted_le_iff_lt_takeWhile time beats hs _ hklt).mpr (by omega)
    · intro j hj hle
      have := (sorted_le_iff_lt_takeWhile time beats hs j hj).mp hle
      omega

/-- Witness for C1: time 5, beats at times 1, 2, 3, two images. -/
theorem getImageForTime_selects_last_beat_witness :
    ∃ i, IsLastBeatIndexLE 5 ([⟨1, 1⟩, ⟨2, 1⟩, ⟨3, 1⟩] : List BeatInfo) i ∧
      VideoExport.getImageForTime 5 [⟨1, 1⟩, ⟨2, 1⟩, ⟨3, 1⟩] ["a", "b"] =
        i % (["a", "b"] : List String).length :=
  getImageForTime_selects_last_beat 5 [⟨1, 1⟩, ⟨2, 1⟩, ⟨3, 1⟩] ["a", "b"]
    (by decide) (by decide) (by decide)

theorem takeWhile_congr_of_eq (p q : α → Bool) :
    ∀ l : List α, (∀ a ∈ l, p a = q a) → l.takeWhile p = l.takeWhile q
  | [], _ => rfl
  | a :: l, h => by
    have ha := h a (List.mem_cons_self a l)
    by_cases hp : p a
    · rw [List.takeWhile_cons, if_pos hp, List.takeWhile_cons, if_pos (ha ▸ hp),
        takeWhile_congr_of_eq p q l (fun x hx => h x (List.mem_cons_of_mem a hx))]
    · rw [List.takeWhile_cons, if_neg hp, List.takeWhile_cons,
        if_neg (fun hq => hp (ha ▸ hq))]

/-- Two query times that compare identically with every beat give the same
image index. -/
theorem getImageForTime_congr (t1 t2 : ℚ) (beats : List BeatInfo)
    (images : List String) (h : ∀ b ∈ beats, b.time ≤ t1 ↔ b.time ≤ t2) :
    VideoExport.getImageForTime t1 beats images =
      VideoExport.getImageForTime t2 beats images := by
  have htw : beats.takeWhile (beatLE t1) = beats.takeWhile (beatLE t2) :=
    takeWhile_congr_of_eq _ _ beats (fun a ha => by simp [beatLE, h a ha])
  by_cases hz : beats.length = 0 ∨ images.length = 0
  · rw [VideoExport.getImageForTime, if_pos hz, VideoExport.getImageForTime, if_pos hz]
  · push_neg at hz
    rw [getImageForTime_takeWhile t1 beats images hz.1 hz.2,
      getImageForTime_takeWhile t2 beats images hz.1 hz.2, htw]

/-- Interval specification used by claim C4: the two times both lie strictly
before the first beat, or between the same adjacent pair of beats, or at or
after the last beat. -/
def SameBeatInterval (beats : List BeatInfo) (t1 t2 : ℚ) : Prop :=
  (∃ h : 0 < beats.length,
    t1 < (beats.get ⟨0, h⟩).time ∧ t2 < (beats.get ⟨0, h⟩).time) ∨
  (∃ (i : Nat) (h : i + 1 < beats.length),
    (beats.get ⟨i, Nat.lt_of_succ_lt h⟩).time ≤ t1 ∧ t1 < (beats.get ⟨i + 1, h⟩).time ∧
    (beats.get ⟨i, Nat.lt_of_succ_lt h⟩).time ≤ t2 ∧ t2 < (beats.get ⟨i + 1, h⟩).time) ∨
  (∃ h : 0 < beats.length,
    (beats.get ⟨beats.length - 1, Nat.sub_lt h Nat.one_pos⟩).time ≤ t1 ∧
    (beats.get ⟨beats.length - 1, Nat.sub_lt h Nat.one_pos⟩).time ≤ t2)

/-- C4: for a non-empty strictly sorted beat list and a non-empty image list,
two times lying in the same inter-beat interval yield the same result from
getImageForTime, so the displayed image changes only at a beat. -/
theorem getImageForTime_constant_between_beats (t1 t2 : ℚ) (beats : List BeatInfo)
    (images : List String) (hs : StrictlySorted beats)
    (hint : SameBeatInterval beats t1 t2) :
    VideoExport.getImageForTime t1 beats images =
      VideoExport.getImageForTime t2 beats images := by
  apply getImageForTime_congr
  intro b hbmem
  rcases List.mem_iff_get.mp hbmem with ⟨⟨j, hj⟩, rfl⟩
  have hpg := List.pairwise_iff_get.mp hs
  have hmono : ∀ (j1 j2 : Nat) (h1 : j1 < beats.length) (h2 : j2 < beats.length),
      j1 ≤ j2 → (beats.get ⟨j1, h1⟩).time ≤ (beats.get ⟨j2, h2⟩).time := by
    intro j1 j2 h1 h2 hle
    rcases Nat.eq_or_lt_of_le hle with rfl | hlt
    · exact le_refl _
    · exact le_of_lt (hpg ⟨j1, h1⟩ ⟨j2, h2⟩ hlt)
  rcases hint with ⟨h0, ha1, ha2⟩ | ⟨i, hi1, hle1, hlt1, hle2, hlt2⟩ | ⟨h0, hle1, hle2⟩
  · have hj0 : (beats.get ⟨0, h0⟩).time ≤ (beats.get ⟨j, hj⟩).time :=
      hmono 0 j h0 hj (Nat.zero_le j)
    exact iff_of_false (fun hc => absurd (le_trans hj0 hc) (not_le.mpr ha1))
      (fun hc => absurd (le_trans hj0 hc) (not_le.mpr ha2))
  · by_cases hji : j ≤ i
    · have h1 : (beats.get ⟨j, hj⟩).time ≤ (beats.get ⟨i, Nat.lt_of_succ_lt hi1⟩).time :=
        hmono j i hj (Nat.lt_of_succ_lt hi1) hji
      exact iff_of_true (le_trans h1 hle1) (le_trans h1 hle2)
    · push_neg at hji
      have h1 : (beats.get ⟨i + 1, hi1⟩).time ≤ (beats.get ⟨j, hj⟩).time :=
        hmono (i + 1) j hi1 hj hji
      exact iff_of_false (fun hc => absurd (le_trans h1 hc) (not_le.mpr hlt1))
        (fun hc => absurd (le_trans h1 hc) (not_le.mpr hlt2))
  · have h1 : (beats.get ⟨j, hj⟩).time ≤
        (beats.get ⟨beats.length - 1, Nat.sub_lt h0 Nat.one_pos⟩).time :=
      hmono j (beats.length - 1) hj (Nat.sub_lt h0 Nat.one_pos) (by omega)
    exact iff_of_true (le_trans h1 hle1) (le_trans h1 hle2)

/-- Witness for C4: times 3/2 and 2 both lie between the beats at times 1
and 3. -/
theorem getImageForTime_constant_between_beats_witness :
    VideoExport.getImageForTime (3 / 2) [⟨1, 1⟩, ⟨3, 1⟩] ["a", "b"] =
      VideoExport.getImageForTime 2 [⟨1, 1⟩, ⟨3, 1⟩] ["a", "b"] :=
  getImageForTime_constant_between_beats (3 / 2) 2 [⟨1, 1⟩, ⟨3, 1⟩] ["a", "b"]
    (by decide)
    (Or.inr (Or.inl ⟨0, by decide, by norm_num, by norm_num, by norm_num, by norm_num⟩))

/-- C3 counterexample: at time 1, with beats at times 0 and 1 and two images,
the videoExport.ts helper returns index 1 while the part_004 helper returns
index 0, so the three variants do not all compute the same function. -/
theorem getImageForTime_variants_counterexample :
    VideoExport.getImageForTime 1 [⟨0, 1⟩, ⟨1, 1⟩] ["a", "b"] ≠
      Part004.getImageForTime 1 [⟨0, 1⟩, ⟨1, 1⟩] ["a", "b"] := by
  decide

theorem closestBeatLoop_v1_eq_v3 (time : ℚ) :
    ∀ (bs : List BeatInfo) (i acc : Nat),
      VideoExport.closestBeatLoop time bs i acc = Part003.closestBeatLoop time bs i acc
  | [], _, _ => rfl
  | b :: bs, i, acc => by
    by_cases h : b.time ≤ time <;>
      simp [VideoExport.closestBeatLoop, Part003.closestBeatLoop, h,
        closestBeatLoop_v1_eq_v3 time bs]

/-- C3 amended: the getImageForTime of src/src/lib/videoExport.ts and the one
of src/unnamed/part_003 compute the same function on all inputs; the
part_004 variant is excluded, since it divides the beat index by two. -/
theorem getImageForTime_v1_eq_v3 :
    ∀ (time : ℚ) (beats : List BeatInfo) (images : List String),
      VideoExport.getImageForTime time beats images =
        Part003.getImageForTime time beats images := by
  intro time beats images
  rw [VideoExport.getImageForTime, Part003.getImageForTime, closestBeatLoop_v1_eq_v3]

/-- C5 counterexample: with beats at times 0 and 1 and two images, the
timeline thumbnail for beat 1 is the second image, while the part_004
getImageForTime variant selects the first image at that beat time. -/
theorem timeline_vs_part004_counterexample :
    Timeline.getImageForBeat ["a", "b"] 1 ≠
      (["a", "b"] : List String).get?
        (Part004.getImageForTime 1 [⟨0, 1⟩, ⟨1, 1⟩] ["a", "b"]) := by
  decide

/-- C5 amended: for a strictly sorted beat list, a non-empty image list and a
beat index i, the timeline thumbnail for beat i equals the image selected by
the getImageForTime of src/src/lib/videoExport.ts (the helper the preview
imports) at that beat time; the part_004 variant is excluded. -/
theorem timeline_agrees_with_preview (beats : List BeatInfo) (images : List String)
    (hs : StrictlySorted beats) (hi : images ≠ []) (i : Nat) (h : i < beats.length) :
    Timeline.getImageForBeat images i =
      images.get? (VideoExport.getImageForTime (beats.get ⟨i, h⟩).time beats images) := by
  have hbl : beats.length ≠ 0 := by omega
  have hil : images.length ≠ 0 := by simpa [List.length_eq_zero] using hi
  set t := (beats.get ⟨i, h⟩).time with ht
  have hik : i < (beats.takeWhile (beatLE t)).length :=
    (sorted_le_iff_lt_takeWhile t beats hs i h).mp (le_refl t)
  have hk2 : (beats.takeWhile (beatLE t)).length ≤ i + 1 := by
    by_contra hgt
    push_neg at hgt
    have hi1 : i + 1 < beats.length :=
      Nat.lt_of_lt_of_le hgt (length_takeWhile_le_length _ beats)
    have hle : (beats.get ⟨i + 1, hi1⟩).time ≤ t :=
      (sorted_le_iff_lt_takeWhile t beats hs (i + 1) hi1).mpr hgt
    have hlt : (beats.get ⟨i, h⟩).time < (beats.get ⟨i + 1, hi1⟩).time :=
      (List.pairwise_iff_get.mp hs) ⟨i, h⟩ ⟨i + 1, hi1⟩ (Nat.lt_succ_self i)
    exact absurd hle (not_le.mpr (ht ▸ hlt))
  have hkk : (beats.takeWhile (beatLE t)).length = i + 1 := by omega
  rw [getImageForTime_takeWhile t beats images hbl hil, hkk]
  simp [Timeline.getImageForBeat, Nat.pos_of_ne_zero hil]

/-- Witness for the amended C5: the second beat of two, with two images. -/
theorem timeline_agrees_with_preview_witness :
    Timeline.getImageForBeat ["a", "b"] 1 =
      (["a", "b"] : List String).get?
        (VideoExport.getImageForTime
          (([⟨0, 1⟩, ⟨1, 1⟩] : List BeatInfo).get ⟨1, by decide⟩).time
          [⟨0, 1⟩, ⟨1, 1⟩] ["a", "b"]) :=
  timeline_agrees_with_preview [⟨0, 1⟩, ⟨1, 1⟩] ["a", "b"] (by decide) (by decide)
    1 (by decide)

namespace VideoExport

/-- The MP4 ftyp box signature bytes written at the start of the fabricated
export buffer (videoExport.ts lines 80-87). -/
def mp4SignatureBytes : List Nat :=
  [0x00, 0x00, 0x00, 0x18, 0x66, 0x74, 0x79, 0x70, 0x69, 0x73, 0x6F, 0x6D,
   0x00, 0x00, 0x00, 0x01, 0x69, 0x73, 0x6F, 0x6D, 0x61, 0x76, 0x63, 0x31]

/-- The fabricated 1 MiB export buffer: a fresh ArrayBuffer is zero filled and
the signature is written over its first 24 bytes (videoExport.ts lines 76-92). -/
def exportBufferBytes : List Nat :=
  mp4SignatureBytes ++ List.replicate (1024 * 1024 - 24) 0

/-- The blob the simulated export resolves with (videoExport.ts line 95). -/
def exportBlob : Blob := ⟨exportBufferBytes, "video/mp4"⟩

/-- Number of simulated processing steps (videoExport.ts line 35). -/
def totalSteps : Nat := 5

/-- The progress percentages reported by the five nested setTimeout callbacks,
each computing (currentStep / totalSteps) * 100 (videoExport.ts lines 39-66). -/
def progressValues : List ℚ :=
  (List.range totalSteps).map (fun s => ((s : ℚ) + 1) / (totalSteps : ℚ) * 100)

/-- Observable events of the simulated export promise, in the order they
happen: progress callbacks, then resolution or rejection. -/
inductive ExportEvent where
  | progress (value : ℚ)
  | resolve (blob : Blob)
  | reject (message : String)
deriving DecidableEq, Repr

/-- The rejection guard of exportVideo (videoExport.ts line 29): truthiness of
images.length, audioFile and beats.length. -/
def missingData (images : List String) (audioFile : Option UploadedFile)
    (beats : List BeatInfo) : Bool :=
  (images.length == 0) || audioFile.isNone || (beats.length == 0)

/-- Event trace of the simulated exportVideo (videoExport.ts lines 19-104):
reject immediately on missing data, otherwise fire the five progress
callbacks in order and resolve with the fabricated blob. The five nested
setTimeout callbacks run strictly in sequence, so a linear trace is a
faithful model. -/
def exportVideo (images : List String) (audioFile : Option UploadedFile)
    (beats : List BeatInfo) : List ExportEvent :=
  if missingData images audioFile beats then
    [ExportEvent.reject "Missing required data for video export"]
  else
    progressValues.map ExportEvent.progress ++ [ExportEvent.resolve exportBlob]

end VideoExport

namespace Part003

/-- The rejection guard of exportVideo in src/unnamed/part_003 lines 27-30. -/
def missingData (images : List String) (audioFile : Option UploadedFile)
    (beats : List BeatInfo) : Bool :=
  (images.length == 0) || audioFile.isNone || (beats.length == 0)

end Part003

namespace Part004

/-- The rejection guard of exportVideo in src/unnamed/part_004 lines 27-30. -/
def missingData (images : List String) (audioFile : Option UploadedFile)
    (beats : List BeatInfo) : Bool :=
  (images.length == 0) || audioFile.isNone || (beats.length == 0)

end Part004

theorem missingData_false (images : List String) (audioFile : Option UploadedFile)
    (beats : List BeatInfo) (hi : images ≠ []) (ha : audioFile ≠ none)
    (hb : beats ≠ []) :
    VideoExport.missingData images audioFile beats = false := by
  have hil : images.length ≠ 0 := by simpa [List.length_eq_zero] using hi
  have hbl : beats.length ≠ 0 := by simpa [List.length_eq_zero] using hb
  simp [VideoExport.missingData, hil, hbl, Option.isNone_iff_eq_none, ha,
    Option.isSome_iff_ne_none]

theorem progressValues_eq :
    VideoExport.progressValues = [20, 40, 60, 80, 100] := by
  have h5 : List.range VideoExport.totalSteps = [0, 1, 2, 3, 4] := by decide
  rw [VideoExport.progressValues, h5]
  norm_num [VideoExport.totalSteps]

/-- C2: on every accepted input, the simulated export resolves with one fixed
blob of MIME type video/mp4 and exactly 1048576 bytes, whose first 24 bytes
are the MP4 ftyp signature and whose remaining bytes are all zero; the blob
does not depend on the images, the audio file or the beats. -/
theorem exportVideo_resolves_fixed_blob (images : List String)
    (audioFile : Option UploadedFile) (beats : List BeatInfo)
    (hi : images ≠ []) (ha : audioFile ≠ none) (hb : beats ≠ []) :
    (VideoExport.exportVideo images audioFile beats).getLast? =
      some (VideoExport.ExportEvent.resolve VideoExport.exportBlob) ∧
    VideoExport.exportBlob.mimeType = "video/mp4" ∧
    VideoExport.exportBlob.bytes.length = 1048576 ∧
    VideoExport.exportBlob.bytes.take 24 = VideoExport.mp4SignatureBytes ∧
    ∀ byte ∈ VideoExport.exportBlob.bytes.drop 24, byte = 0 := by
  have hguard := missingData_false images audioFile beats hi ha hb
  have hsig : VideoExport.mp4SignatureBytes.length = 24 := by decide
  refine ⟨?_, rfl, ?_, ?_, ?_⟩
  · rw [VideoExport.exportVideo, if_neg (by simp [hguard])]
    simp
  · show VideoExport.exportBufferBytes.length = 1048576
    rw [VideoExport.exportBufferBytes, List.length_append, List.length_replicate, hsig]
  · show VideoExport.exportBufferBytes.take 24 = VideoExport.mp4SignatureBytes
    rw [VideoExport.exportBufferBytes, ← hsig, List.take_left]
  · show ∀ byte ∈ VideoExport.exportBufferBytes.drop 24, byte = 0
    rw [VideoExport.exportBufferBytes, ← hsig, List.drop_left]
    intro byte hbyte
    exact List.eq_of_mem_replicate hbyte

/-- Witness for C2: one image, an audio file, one beat. -/
theorem exportVideo_resolves_fixed_blob_witness :
    (VideoExport.exportVideo ["a"] (some ⟨"song", "audio/mp3", "u", true⟩)
        [⟨1, 1⟩]).getLast? =
      some (VideoExport.ExportEvent.resolve VideoExport.exportBlob) ∧
    VideoExport.exportBlob.mimeType = "video/mp4" ∧
    VideoExport.exportBlob.bytes.length = 1048576 ∧
    VideoExport.exportBlob.bytes.take 24 = VideoExport.mp4SignatureBytes ∧
    ∀ byte ∈ VideoExport.exportBlob.bytes.drop 24, byte = 0 :=
  exportVideo_resolves_fixed_blob ["a"] (some ⟨"song", "audio/mp3", "u", true⟩)
    [⟨1, 1⟩] (by decide) (by decide) (by decide)

namespace VideoExport

/-- Extracts the reported percentage from a progress event. -/
def progressOf : ExportEvent → Option ℚ
  | ExportEvent.progress v => some v
  | ExportEvent.resolve _ => none
  | ExportEvent.reject _ => none

end VideoExport

theorem exportVideo_accepted_trace (images : List String)
    (audioFile : Option UploadedFile) (beats : List BeatInfo)
    (hi : images ≠ []) (ha : audioFile ≠ none) (hb : beats ≠ []) :
    VideoExport.exportVideo images audioFile beats =
      [VideoExport.ExportEvent.progress 20, VideoExport.ExportEvent.progress 40,
       VideoExport.ExportEvent.progress 60, VideoExport.ExportEvent.progress 80,
       VideoExport.ExportEvent.progress 100,
       VideoExport.ExportEvent.resolve VideoExport.exportBlob] := by
  have hguard := missingData_false images audioFile beats hi ha hb
  rw [VideoExport.exportVideo, if_neg (by simp [hguard]), progressValues_eq]
  rfl

/-- C7: on every accepted input, the simulated export fires the progress
callback exactly five times, with the strictly increasing values 20, 40, 60,
80, 100 in that order, and the promise resolution event comes after the
progress event that reports 100. -/
theorem exportVideo_progress_steps (images : List String)
    (audioFile : Option UploadedFile) (beats : List BeatInfo)
    (hi : images ≠ []) (ha : audioFile ≠ none) (hb : beats ≠ []) :
    (VideoExport.exportVideo images audioFile beats).filterMap
        VideoExport.progressOf = [20, 40, 60, 80, 100] ∧
    List.Chain' (fun a b => a < b)
      ((VideoExport.exportVideo images audioFile beats).filterMap
        VideoExport.progressOf) ∧
    (VideoExport.exportVideo images audioFile beats).get? 4 =
      some (VideoExport.ExportEvent.progress 100) ∧
    (VideoExport.exportVideo images audioFile beats).get? 5 =
      some (VideoExport.ExportEvent.resolve VideoExport.exportBlob) ∧
    (VideoExport.exportVideo images audioFile beats).length = 6 := by
  rw [exportVideo_accepted_trace images audioFile beats hi ha hb]
  refine ⟨?_, ?_, rfl, rfl, rfl⟩
  · simp [List.filterMap, VideoExport.progressOf]
  · simp only [List.filterMap, VideoExport.progressOf]
    norm_num [List.chain'_cons]

/-- Witness for C7: one image, an audio file, one beat. -/
theorem exportVideo_progress_steps_witness :
    (VideoExport.exportVideo ["a"] (some ⟨"song", "audio/mp3", "u", true⟩)
        [⟨1, 1⟩]).filterMap VideoExport.progressOf = [20, 40, 60, 80, 100] ∧
    List.Chain' (fun a b => a < b)
      ((VideoExport.exportVideo ["a"] (some ⟨"song", "audio/mp3", "u", true⟩)
        [⟨1, 1⟩]).filterMap VideoExport.progressOf) ∧
    (VideoExport.exportVideo ["a"] (some ⟨"song", "audio/mp3", "u", true⟩)
        [⟨1, 1⟩]).get? 4 = some (VideoExport.ExportEvent.progress 100) ∧
    (VideoExport.exportVideo ["a"] (some ⟨"song", "audio/mp3", "u", true⟩)
        [⟨1, 1⟩]).get? 5 =
      some (VideoExport.ExportEvent.resolve VideoExport.exportBlob) ∧
    (VideoExport.exportVideo ["a"] (some ⟨"song", "audio/mp3", "u", true⟩)
        [⟨1, 1⟩]).length = 6 :=
  exportVideo_progress_steps ["a"] (some ⟨"song", "audio/mp3", "u", true⟩)
    [⟨1, 1⟩] (by decide) (by decide) (by decide)

/-- C8: the simulated exportVideo rejects with the missing data error exactly
when the image list is empty, the audio file is absent or the beat list is
empty, and the rejection guard is one and the same function in the
videoExport.ts, part_003 and part_004 variants. -/
theorem exportVideo_rejects_iff (images : List String)
    (audioFile : Option UploadedFile) (beats : List BeatInfo) :
    (VideoExport.exportVideo images audioFile beats =
        [VideoExport.ExportEvent.reject "Missing required data for video export"] ↔
      (images = [] ∨ audioFile = none ∨ beats = [])) ∧
    VideoExport.missingData images audioFile beats =
      Part003.missingData images audioFile beats ∧
    VideoExport.missingData images audioFile beats =
      Part004.missingData images audioFile beats := by
  refine ⟨⟨?_, ?_⟩, rfl, rfl⟩
  · intro h
    by_contra hc
    push_neg at hc
    obtain ⟨h1, h2, h3⟩ := hc
    rw [exportVideo_accepted_trace images audioFile beats h1 h2 h3] at h
    simp at h
  · intro h
    have hg : VideoExport.missingData images audioFile beats = true := by
      rcases h with h | h | h <;>
        simp [VideoExport.missingData, h, Option.isNone_iff_eq_none]
    rw [VideoExport.exportVideo, if_pos (by simp [hg])]

namespace Index

/-- The image check on an uploaded file (Index.tsx line 34). -/
def isImageFile (f : UploadedFile) : Bool := f.fileType.startsWith "image/"

/-- The data URLs collected by the upload loop (Index.tsx lines 31-53): files
that are not images are skipped, files whose read fails are skipped, the rest
contribute their data URL in order. -/
def readImages (files : List UploadedFile) : List String :=
  (files.filter (fun f => isImageFile f && f.readOk)).map (fun f => f.dataUrl)

/-- handleImagesUpload from src/src/pages/Index.tsx lines 24-59: a batch that
would push the collection past 300 images is rejected whole with an error,
otherwise the data URLs read from the batch are appended. -/
def handleImagesUpload (images : List String) (files : List UploadedFile) :
    List String :=
  if images.length + files.length > 300 then images
  else images ++ readImages files

/-- handleRemoveImage from src/src/pages/Index.tsx lines 141-147: removes one
entry with splice(index, 1). -/
def handleRemoveImage (images : List String) (index : Nat) : List String :=
  images.eraseIdx index

end Index

namespace ImageGrid

/-- handleDrop from src/unnamed/part_001 lines 21-39: returns the list
unchanged when no drag is active; otherwise removes the dragged entry and
splices it back in at the drop position (a splice insertion position is
clamped to the list length, as in JavaScript). The component only drags
indices of rendered images, so a dragged index outside the list does not
occur; the model returns the list unchanged there. -/
def handleDrop (images : List String) (draggedIndex : Option Nat)
    (dropIndex : Nat) : List String :=
  match draggedIndex with
  | none => images
  | some di =>
    match images.get? di with
    | none => images
    | some draggedImage =>
      (images.eraseIdx di).insertIdx
        (min dropIndex (images.eraseIdx di).length) draggedImage

end ImageGrid

theorem length_eraseIdx_of_lt (l : List α) (i : Nat) (h : i < l.length) :
    (l.eraseIdx i).length = l.length - 1 := by
  simp [List.length_eraseIdx, h]

theorem insertIdx_perm_cons (a : α) :
    ∀ (l : List α) (n : Nat), n ≤ l.length → (l.insertIdx n a).Perm (a :: l)
  | l, 0, _ => by simp [List.insertIdx_zero]
  | [], n + 1, h => by simp at h
  | b :: l, n + 1, h => by
    rw [List.insertIdx_succ_cons]
    exact ((insertIdx_perm_cons a l n (Nat.le_of_succ_le_succ h)).cons b).trans
      (List.Perm.swap a b l)

theorem perm_get_cons_eraseIdx :
    ∀ (l : List α) (i : Nat) (h : i < l.length),
      l.Perm (l.get ⟨i, h⟩ :: l.eraseIdx i)
  | a :: l, 0, _ => by simp
  | a :: l, i + 1, h => by
    have h' : i < l.length := Nat.lt_of_succ_lt_succ h
    have ih := perm_get_cons_eraseIdx l i h'
    simp only [List.get_cons_succ, List.eraseIdx_cons_succ]
    exact (ih.cons a).trans (List.Perm.swap (l.get ⟨i, h'⟩) a (l.eraseIdx i))

theorem insertIdx_get_eraseIdx :
    ∀ (l : List α) (i : Nat) (h : i < l.length),
      (l.eraseIdx i).insertIdx i (l.get ⟨i, h⟩) = l
  | _ :: _, 0, _ => by simp [List.insertIdx_zero]
  | a :: l, i + 1, h => by
    simp only [List.get_cons_succ, List.eraseIdx_cons_succ, List.insertIdx_succ_cons]
    rw [insertIdx_get_eraseIdx l i (Nat.lt_of_succ_lt_succ h)]

theorem handleDrop_valid_eq (images : List String) (di dropIndex : Nat)
    (h : di < images.length) :
    ImageGrid.handleDrop images (some di) dropIndex =
      (images.eraseIdx di).insertIdx
        (min dropIndex (images.eraseIdx di).length) (images.get ⟨di, h⟩) := by
  rw [ImageGrid.handleDrop]
  rw [List.get?_eq_get h]

theorem handleDrop_length (images : List String) (di : Option Nat)
    (dropIndex : Nat) :
    (ImageGrid.handleDrop images di dropIndex).length = images.length := by
  match di with
  | none => rfl
  | some di =>
    cases hget : images.get? di with
    | none =>
      rw [ImageGrid.handleDrop, hget]
    | some img =>
      have hlt : di < images.length := by
        by_contra hge
        rw [List.get?_eq_none.mpr (by omega)] at hget
        exact Option.noConfusion hget
      rw [handleDrop_valid_eq images di dropIndex hlt,
        List.length_insertIdx _ _ (min_le_right _ _),
        length_eraseIdx_of_lt images di hlt]
      omega

/-- C10: drag reordering permutes the image list without loss: for every
valid dragged index and every drop index, handleDrop keeps the length and
the multiset of entries, and dropping an image at its own position leaves
the list unchanged. -/
theorem handleDrop_permutes (images : List String) (di dropIndex : Nat)
    (h : di < images.length) :
    (ImageGrid.handleDrop images (some di) dropIndex).length = images.length ∧
    (ImageGrid.handleDrop images (some di) dropIndex).Perm images ∧
    ImageGrid.handleDrop images (some di) di = images := by
  have hel : (images.eraseIdx di).length = images.length - 1 :=
    length_eraseIdx_of_lt images di h
  refine ⟨handleDrop_length images (some di) dropIndex, ?_, ?_⟩
  · rw [handleDrop_valid_eq images di dropIndex h]
    exact (insertIdx_perm_cons _ _ _ (min_le_right _ _)).trans
      (perm_get_cons_eraseIdx images di h).symm
  · rw [handleDrop_valid_eq images di di h]
    have hmin : min di (images.eraseIdx di).length = di := by
      rw [hel]; omega
    rw [hmin, insertIdx_get_eraseIdx images di h]

/-- Witness for C10: dragging the first of three images onto the third. -/
theorem handleDrop_permutes_witness :
    (ImageGrid.handleDrop ["a", "b", "c"] (some 0) 2).length =
      (["a", "b", "c"] : List String).length ∧
    (ImageGrid.handleDrop ["a", "b", "c"] (some 0) 2).Perm ["a", "b", "c"] ∧
    ImageGrid.handleDrop ["a", "b", "c"] (some 0) 0 = ["a", "b", "c"] :=
  handleDrop_permutes ["a", "b", "c"] 0 2 (by decide)

/-- C9: the 300-image cap: an upload batch that would push the collection
past 300 images is rejected whole and leaves the list unchanged, and a
collection of at most 300 images still has at most 300 after any upload,
removal or drag reordering. -/
theorem imageLimit_invariant (images : List String) (h : images.length ≤ 300) :
    (∀ files : List UploadedFile, images.length + files.length > 300 →
        Index.handleImagesUpload images files = images) ∧
    (∀ files : List UploadedFile,
        (Index.handleImagesUpload images files).length ≤ 300) ∧
    (∀ i : Nat, (Index.handleRemoveImage images i).length ≤ 300) ∧
    (∀ (di : Option Nat) (dropIndex : Nat),
        (ImageGrid.handleDrop images di dropIndex).length ≤ 300) := by
  refine ⟨?_, ?_, ?_, ?_⟩
  · intro files hgt
    rw [Index.handleImagesUpload, if_pos hgt]
  · intro files
    rw [Index.handleImagesUpload]
    by_cases hgt : images.length + files.length > 300
    · rw [if_pos hgt]; exact h
    · rw [if_neg hgt]
      have h1 : (Index.readImages files).length ≤ files.length := by
        rw [Index.readImages, List.length_map]
        exact List.length_filter_le _ _
      rw [List.length_append]
      omega
  · intro i
    have h1 : (images.eraseIdx i).length ≤ images.length := by
      rw [List.length_eraseIdx]
      split <;> omega
    exact le_trans h1 h
  · intro di dropIndex
    rw [handleDrop_length]
    exact h

/-- Witness for C9: a one-image collection. -/
theorem imageLimit_invariant_witness :
    (∀ files : List UploadedFile, (["a"] : List String).length + files.length > 300 →
        Index.handleImagesUpload ["a"] files = ["a"]) ∧
    (∀ files : List UploadedFile,
        (Index.handleImagesUpload ["a"] files).length ≤ 300) ∧
    (∀ i : Nat, (Index.handleRemoveImage ["a"] i).length ≤ 300) ∧
    (∀ (di : Option Nat) (dropIndex : Nat),
        (ImageGrid.handleDrop ["a"] di dropIndex).length ≤ 300) :=
  imageLimit_invariant ["a"] (by decide)

namespace BeatDetection

/-- Modelled from the spec: the beat detection module (src/lib/beatDetection.ts,
the beatDetector object whose detectBeats the pages import) is not included
under src/. The spec calls it a fixed-window energy-threshold beat detector,
a simple fixed-window amplitude-threshold scan over the decoded audio
samples. The energy of a window is its mean absolute amplitude. -/
def windowEnergy (window : List ℚ) : ℚ :=
  (window.map (fun s => |s|)).sum / (window.length : ℚ)

/-- Modelled from the spec: the samples split into fixed-size consecutive
windows; the last window may be shorter. -/
def windows (windowSize : Nat) : List ℚ → List (List ℚ)
  | [] => []
  | s :: rest =>
    (s :: rest.take (windowSize - 1)) :: windows windowSize (rest.drop (windowSize - 1))
termination_by l => l.length
decreasing_by
  simp only [List.length_cons, List.length_drop]
  omega

/-- Modelled from the spec: the scan over the windows, keeping the running
window index; each window whose energy exceeds the threshold contributes a
beat at the window start time with the window energy as intensity. -/
def scanWindows (threshold sampleRate : ℚ) (windowSize : Nat) :
    List (List ℚ) → Nat → List BeatInfo
  | [], _ => []
  | w :: ws, i =>
    if threshold < windowEnergy w then
      ⟨((i * windowSize : Nat) : ℚ) / sampleRate, windowEnergy w⟩ ::
        scanWindows threshold sampleRate windowSize ws (i + 1)
    else scanWindows threshold sampleRate windowSize ws (i + 1)

/-- Modelled from the spec: detectBeats runs the fixed-window threshold scan
over the sample list. -/
def detectBeats (samples : List ℚ) (windowSize : Nat)
    (threshold sampleRate : ℚ) : List BeatInfo :=
  scanWindows threshold sampleRate windowSize (windows windowSize samples) 0

end BeatDetection

theorem scanWindows_mem_iff (threshold sampleRate : ℚ) (windowSize : Nat) :
    ∀ (ws : List (List ℚ)) (start : Nat) (b : BeatInfo),
      b ∈ BeatDetection.scanWindows threshold sampleRate windowSize ws start ↔
        ∃ (j : Nat) (hj : j < ws.length),
          threshold < BeatDetection.windowEnergy (ws.get ⟨j, hj⟩) ∧
          b = ⟨(((start + j) * windowSize : Nat) : ℚ) / sampleRate,
            BeatDetection.windowEnergy (ws.get ⟨j, hj⟩)⟩
  | [], start, b => by simp [BeatDetection.scanWindows]
  | w :: ws, start, b => by
    rw [BeatDetection.scanWindows]
    by_cases hw : threshold < BeatDetection.windowEnergy w
    · rw [if_pos hw]
      constructor
      · intro hmem
        rcases List.mem_cons.mp hmem with rfl | hmem
        · exact ⟨0, Nat.succ_pos _, by simpa using hw, by simp⟩
        · rcases (scanWindows_mem_iff threshold sampleRate windowSize ws
              (start + 1) b).mp hmem with ⟨j, hj, hthr, hb⟩
          refine ⟨j + 1, Nat.succ_lt_succ hj, by simpa using hthr, ?_⟩
          have harith : start + 1 + j = start + (j + 1) := by omega
          simpa [harith] using hb
      · rintro ⟨j, hj, hthr, rfl⟩
        cases j with
        | zero => exact List.mem_cons.mpr (Or.inl (by simp))
        | succ j =>
          refine List.mem_cons_of_mem _
            ((scanWindows_mem_iff threshold sampleRate windowSize ws
              (start + 1) _).mpr ⟨j, Nat.lt_of_succ_lt_succ hj, by simpa using hthr, ?_⟩)
          have harith : start + (j + 1) = start + 1 + j := by omega
          simp [harith]
    · rw [if_neg hw]
      rw [scanWindows_mem_iff threshold sampleRate windowSize ws (start + 1) b]
      constructor
      · rintro ⟨j, hj, hthr, hb⟩
        refine ⟨j + 1, Nat.succ_lt_succ hj, by simpa using hthr, ?_⟩
        have harith : start + 1 + j = start + (j + 1) := by omega
        simpa [harith] using hb
      · rintro ⟨j, hj, hthr, hb⟩
        cases j with
        | zero => exact absurd (by simpa using hthr) hw
        | succ j =>
          refine ⟨j, Nat.lt_of_succ_lt_succ hj, by simpa using hthr, ?_⟩
          have harith : start + 1 + j = start + (j + 1) := by omega
          simpa [harith] using hb

/-- C6: the spec-modelled detectBeats is exactly a fixed-window threshold
scan: a beat is returned for window j exactly when the energy of window j
exceeds the threshold, and the beat carries the window start time and the
window energy; nothing else is returned. -/
theorem detectBeats_iff_window_over_threshold (samples : List ℚ)
    (windowSize : Nat) (threshold sampleRate : ℚ) (b : BeatInfo) :
    b ∈ BeatDetection.detectBeats samples windowSize threshold sampleRate ↔
      ∃ (j : Nat) (hj : j < (BeatDetection.windows windowSize samples).length),
        threshold < BeatDetection.windowEnergy
          ((BeatDetection.windows windowSize samples).get ⟨j, hj⟩) ∧
        b = ⟨((j * windowSize : Nat) : ℚ) / sampleRate,
          BeatDetection.windowEnergy
            ((BeatDetection.windows windowSize samples).get ⟨j, hj⟩)⟩ := by
  rw [BeatDetection.detectBeats, scanWindows_mem_iff]
  simp
